import Mathlib

/-!
Shallow embedding of the miniature_tracker status-ledger and analytics core.

The definitions below are translated from the repository's Python source:
  * `backend/app/models.py`   — the data model (`PaintingStatus`, `StatusLogEntry`,
    `Unit`/`Miniature`, update payloads, statistics and trend result shapes);
  * `backend/app/crud.py`     — the JSON-file `MiniatureDB` CRUD operations
    (`create_miniature`, `update_miniature`, `add_status_log_entry`,
    `update_status_log_entry`, `delete_status_log_entry`);
  * `backend/app/database.py` — `PostgreSQLDatabase.get_collection_statistics`,
    `FileDatabase.get_collection_statistics`, and the (identical in both classes)
    `get_trend_analysis`.

Modelling conventions:
  * Timestamps (`created_at` / `updated_at`) are abstract tick counters (`Nat`),
    supplied as an explicit `now` argument where Python calls `datetime.now()`.
  * Business dates are calendar triples (`Date`), mirroring `datetime.date`.
    Python compares dates both as `datetime` objects and as zero-padded
    `"YYYY-MM-DD"` strings; for valid dates (month and day below 100) both
    orders coincide with the numeric order of `Date.code`.
  * UUIDs are modelled as `Nat` identifiers.
  * `Decimal` / `float` money amounts are modelled as exact rationals (`ℚ`).
    Python's `round(x, n)` is banker's rounding, modelled exactly by
    `roundHalfEven` on rationals.
  * Pydantic's `model_dump(exclude_unset=True)` is modelled by `Option` fields
    on the update payloads: `none` means the field was absent from the payload.
  * Python dicts that the source builds key-by-key (`defaultdict`, `dict.get`)
    are modelled as association lists in insertion order, which is exactly the
    iteration order of `dict.items()` in Python.
-/

/-- `PaintingStatus` enumeration from `models.py`. -/
inductive PaintingStatus where
  | want_to_buy
  | purchased
  | assembled
  | primed
  | game_ready
  | parade_ready
deriving DecidableEq, Repr

/-- The `.value` string of each `PaintingStatus` member (`str, Enum` in Python). -/
def statusStr : PaintingStatus → String
  | .want_to_buy => "want_to_buy"
  | .purchased => "purchased"
  | .assembled => "assembled"
  | .primed => "primed"
  | .game_ready => "game_ready"
  | .parade_ready => "parade_ready"

/-- Iteration order of `for status in PaintingStatus` (declaration order). -/
def allStatuses : List PaintingStatus :=
  [.want_to_buy, .purchased, .assembled, .primed, .game_ready, .parade_ready]

/-- A calendar date, as in Python's `datetime.date` /
midnight `datetime`. -/
structure Date where
  year : Nat
  month : Nat
  day : Nat
deriving DecidableEq, Repr

/-- Numeric encoding of a date; for valid dates (month, day < 100) the order of
codes is exactly the lexicographic `datetime` order and the lexicographic order
of the zero-padded `"YYYY-MM-DD"` strings the source compares. -/
def Date.code (d : Date) : Nat := (d.year * 100 + d.month) * 100 + d.day

/-- Date comparison (`<=` between `datetime` objects / ISO strings). -/
def Date.leB (a b : Date) : Bool := a.code ≤ b.code

/-- Python's Gregorian leap-year rule (`calendar.isleap`). -/
def isLeap (y : Nat) : Bool := y % 4 == 0 && (y % 100 != 0 || y % 400 == 0)

/-- Length of a month, as validated by `datetime.replace`. -/
def daysInMonth (y m : Nat) : Nat :=
  if m = 2 then (if isLeap y then 29 else 28)
  else if m = 4 ∨ m = 6 ∨ m = 9 ∨ m = 11 then 30
  else 31

/-- A valid calendar date. -/
def Date.valid (d : Date) : Prop :=
  1 ≤ d.month ∧ d.month ≤ 12 ∧ 1 ≤ d.day ∧ d.day ≤ daysInMonth d.year d.month

instance (d : Date) : Decidable d.valid := by
  unfold Date.valid; infer_instance

/-- `StatusLogEntry` model: one immutable transition record. -/
structure StatusLogEntry where
  id : Nat
  from_status : Option PaintingStatus
  to_status : PaintingStatus
  date : Date
  notes : Option String
  is_manual : Bool
  created_at : Nat
deriving DecidableEq, Repr

/-- The `Unit` / `Miniature` model (category fields not used by any claim —
`faction`, `game_system`, `unit_type`, `base_dimension`, `purchase_date` —
are omitted; they do not interact with the ledger or the claims' statistics). -/
structure Miniature where
  id : Nat
  name : String
  quantity : Nat
  cost : Option ℚ
  status : PaintingStatus
  status_history : List StatusLogEntry
  created_at : Nat
  updated_at : Nat
deriving DecidableEq, Repr

/-- `MiniatureCreate` payload (fields relevant to the ledger and statistics). -/
structure MiniatureCreate where
  name : String
  quantity : Nat
  cost : Option ℚ
  status : PaintingStatus

/-- `MiniatureUpdate` payload after `model_dump(exclude_unset=True)`:
`status = none` means the `status` key was absent; `otherFieldsSet` records
whether any of the other optional keys (name, faction, quantity, cost, ...)
was present, which only matters for the emptiness test `if not update_data`. -/
structure MiniatureUpdate where
  status : Option PaintingStatus
  otherFieldsSet : Bool

/-- `StatusLogEntryCreate` payload (`is_manual` defaults to `True`). -/
structure StatusLogEntryCreate where
  from_status : Option PaintingStatus
  to_status : PaintingStatus
  date : Date
  notes : Option String
  is_manual : Bool

/-- `StatusLogEntryUpdate` payload after `exclude_unset`: `none` = key absent. -/
structure StatusLogEntryUpdate where
  date : Option Date
  notes : Option (Option String)

/-- `MiniatureDB.create_miniature` (crud.py): the new item carries one initial
ledger entry with `from_status = None`, `to_status = miniature.status`,
`is_manual = False`; entry `date`/`created_at` default to now.
`PostgreSQLDatabase.create_miniature` inserts the same initial row. -/
def createMiniature (c : MiniatureCreate) (mid eid : Nat) (today : Date) (now : Nat) :
    Miniature :=
  { id := mid
    name := c.name
    quantity := c.quantity
    cost := c.cost
    status := c.status
    status_history := [⟨eid, none, c.status, today, none, false, now⟩]
    created_at := now
    updated_at := now }

/-- `MiniatureDB.update_miniature` (crud.py), restricted to the matched item:
an empty payload returns the current item unchanged (no save); otherwise
`updated_at` is set to now, the fields in the payload are overwritten, and a
non-manual ledger entry is appended exactly when the status actually changed.
`PostgreSQLDatabase.update_miniature` has the same behaviour. -/
def updateMiniature (m : Miniature) (u : MiniatureUpdate) (eid : Nat) (today : Date)
    (now : Nat) : Miniature :=
  if u.status = none ∧ u.otherFieldsSet = false then m
  else
    let old := m.status
    let newStatus := u.status.getD old
    if old ≠ newStatus then
      { m with
        status := newStatus
        updated_at := now
        status_history :=
          m.status_history ++ [⟨eid, some old, newStatus, today, none, false, now⟩] }
    else
      { m with status := newStatus, updated_at := now }

/-- `MiniatureDB.add_status_log_entry` (crud.py), restricted to the matched
item: appends the new entry to `status_history` and then unconditionally sets
`status = log_entry.to_status` (the source comment reads "Update current status
if this is the latest entry", but no condition is checked — the assignment is
unconditional, even for a backdated `date`). `PostgreSQLDatabase` likewise
inserts the row and then runs `UPDATE miniatures SET status = $1`. -/
def addStatusLogEntry (m : Miniature) (e : StatusLogEntryCreate) (eid : Nat)
    (now : Nat) : Miniature :=
  { m with
    status_history :=
      m.status_history ++ [⟨eid, e.from_status, e.to_status, e.date, e.notes, e.is_manual, now⟩]
    status := e.to_status
    updated_at := now }

/-- `MiniatureDB.delete_status_log_entry` (crud.py), restricted to the matched
item: filters out every entry whose id matches; if anything was removed the
item is saved with a bumped `updated_at`, otherwise the result is `None`.
There is no guard against removing the last remaining entry (neither here nor
in `PostgreSQLDatabase.delete_status_log_entry`). -/
def deleteStatusLogEntryCrud (m : Miniature) (logId : Nat) (now : Nat) :
    Option Miniature :=
  let filtered := m.status_history.filter (fun e => e.id ≠ logId)
  if filtered.length < m.status_history.length then
    some { m with status_history := filtered, updated_at := now }
  else none

/-- Inner loop of `MiniatureDB.update_status_log_entry`: scan the history for
the matching entry id; on a hit with a non-empty payload, overwrite the
present fields of that entry and stop. A hit with an empty payload falls
through (the `if update_data:` body is skipped) and the scan continues, so an
empty payload can never produce an update. -/
def findAndUpdateEntry (hist : List StatusLogEntry) (logId : Nat)
    (u : StatusLogEntryUpdate) : Option (List StatusLogEntry) :=
  match hist with
  | [] => none
  | e :: rest =>
    if e.id = logId ∧ ¬(u.date = none ∧ u.notes = none) then
      some ({ e with date := u.date.getD e.date, notes := u.notes.getD e.notes } :: rest)
    else
      (findAndUpdateEntry rest logId u).map (e :: ·)

/-- `MiniatureDB.update_status_log_entry` (crud.py) over the stored list of
items: find the first item with the given id, try to update the entry inside
it; return the updated item and the saved data on success, otherwise `None`
with the data untouched (`_save_data` is only reached on success). -/
def updateStatusLogEntryCrud (data : List Miniature) (minId logId : Nat)
    (u : StatusLogEntryUpdate) (now : Nat) : Option Miniature × List Miniature :=
  match data with
  | [] => (none, [])
  | m :: rest =>
    if m.id = minId then
      match findAndUpdateEntry m.status_history logId u with
      | some hist2 =>
        let m2 := { m with status_history := hist2, updated_at := now }
        (some m2, m2 :: rest)
      | none => (none, m :: rest)
    else
      let r := updateStatusLogEntryCrud rest minId logId u now
      (r.1, m :: r.2)

/-- One mutating ledger operation on an existing item (the operations named by
the cache-consistency claim besides creation). -/
inductive CrudOp where
  | update (u : MiniatureUpdate) (eid : Nat) (today : Date) (now : Nat)
  | addLog (e : StatusLogEntryCreate) (eid : Nat) (now : Nat)

/-- Apply one ledger operation. -/
def applyCrudOp (m : Miniature) : CrudOp → Miniature
  | .update u eid today now => updateMiniature m u eid today now
  | .addLog e eid now => addStatusLogEntry m e eid now

/-- `to_status` of the most-recently-appended ledger entry. -/
def lastToStatus (m : Miniature) : Option PaintingStatus :=
  m.status_history.getLast?.map (·.to_status)

/-- The denormalized-cache invariant: `item.status` equals the `to_status` of
the last appended entry. -/
def cacheConsistent (m : Miniature) : Prop := lastToStatus m = some m.status

/-- Python's `round(x, ndigits)` tie rule (banker's rounding) on exact
rationals: round to the nearest integer, ties to the even integer. -/
def roundHalfEven (q : ℚ) : ℤ :=
  let fl := ⌊q⌋
  if q - fl < 1/2 then fl
  else if (1:ℚ)/2 < q - fl then fl + 1
  else if fl % 2 = 0 then fl else fl + 1

/-- `round(x, 1)`. -/
def round1 (q : ℚ) : ℚ := (roundHalfEven (q * 10) : ℚ) / 10

/-- `round(x, 2)`. -/
def round2 (q : ℚ) : ℚ := (roundHalfEven (q * 100) : ℚ) / 100

/-- `CollectionStatistics` as produced by `PostgreSQLDatabase`: the status
breakdown is keyed by the enum members themselves. Breakdowns not examined by
any claim (`game_system`, `faction`, `unit_type`) are omitted. -/
structure CollectionStatistics where
  total_units : Nat
  total_models : Nat
  total_cost : Option ℚ
  status_breakdown : List (PaintingStatus × Nat)
  completion_percentage : ℚ
deriving DecidableEq, Repr

/-- `PostgreSQLDatabase.get_collection_statistics`: zero shortcut for an empty
collection (with an EMPTY `status_breakdown` dict); otherwise
`sum(m.cost for m in miniatures if m.cost is not None)` reported as `None`
unless strictly positive, a zero-filled per-enum status breakdown, and
`completion = completed / total * 100` over `GAME_READY` / `PARADE_READY`,
rounded to one decimal. -/
def statsPG (minis : List Miniature) : CollectionStatistics :=
  if minis.isEmpty then
    { total_units := 0, total_models := 0, total_cost := none
      status_breakdown := [], completion_percentage := 0 }
  else
    let total_units := minis.length
    let total_models := minis.foldl (fun a m => a + m.quantity) 0
    let total_cost := (minis.filterMap (fun m => m.cost)).foldl (fun a c => a + c) 0
    let status_breakdown :=
      allStatuses.map (fun s => (s, minis.countP (fun m => decide (m.status = s))))
    let completed :=
      minis.countP (fun m => decide (m.status = .game_ready ∨ m.status = .parade_ready))
    let completion : ℚ := if total_units > 0 then (completed : ℚ) * 100 / total_units else 0
    { total_units := total_units
      total_models := total_models
      total_cost := if total_cost > 0 then some total_cost else none
      status_breakdown := status_breakdown
      completion_percentage := round1 completion }

/-- Bump a string-keyed counter dict (`d[k] = d.get(k, 0) + 1`), preserving
insertion order. -/
def bumpKey (l : List (String × Nat)) (k : String) : List (String × Nat) :=
  match l with
  | [] => [(k, 1)]
  | (k1, v) :: rest => if k1 = k then (k1, v + 1) :: rest else (k1, v) :: bumpKey rest k

/-- `CollectionStatistics` as produced by `FileDatabase`: its status breakdown
is keyed by the status `.value` strings and holds only observed keys. -/
structure FileCollectionStatistics where
  total_units : Nat
  total_models : Nat
  total_cost : Option ℚ
  status_breakdown : List (String × Nat)
  completion_percentage : ℚ
deriving DecidableEq, Repr

/-- The hard-coded list `completed_statuses = ['painted', 'completed',
'finished']` in `FileDatabase.get_collection_statistics`. -/
def fileCompletedStatuses : List String := ["painted", "completed", "finished"]

/-- `FileDatabase.get_collection_statistics`: same empty shortcut; total cost is
`sum(getattr(m, 'cost', 0) or 0 ...)` reported as `None` unless positive; the
status breakdown counts only observed `.value` keys; "completed" units are the
breakdown rows whose (already lowercase) key is in `completed_statuses`. -/
def statsFile (minis : List Miniature) : FileCollectionStatistics :=
  if minis.isEmpty then
    { total_units := 0, total_models := 0, total_cost := none
      status_breakdown := [], completion_percentage := 0 }
  else
    let total_units := minis.length
    let total_models := minis.foldl (fun a m => a + m.quantity) 0
    let total_cost := minis.foldl (fun a m => a + m.cost.getD 0) 0
    let status_breakdown := minis.foldl (fun l m => bumpKey l (statusStr m.status)) []
    let completed : Nat :=
      (status_breakdown.filter (fun kv => kv.1 ∈ fileCompletedStatuses)).foldl
        (fun a kv => a + kv.2) 0
    let completion : ℚ := if total_units > 0 then (completed : ℚ) * 100 / total_units else 0
    { total_units := total_units
      total_models := total_models
      total_cost := if total_cost > 0 then some total_cost else none
      status_breakdown := status_breakdown
      completion_percentage := round1 completion }

/-- Sum of the non-null costs (the quantity `total_cost` is computed from). -/
def sumCosts (minis : List Miniature) : ℚ :=
  (minis.filterMap (fun m => m.cost)).foldl (fun a c => a + c) 0

/-- Number of items currently in status `s`. -/
def countStatus (minis : List Miniature) (s : PaintingStatus) : Nat :=
  minis.countP (fun m => decide (m.status = s))

/-- `date.replace(month=month+1)` / wrap to January: validates the day against
the target month and raises `ValueError` (here `none`) when the day does not
exist in it — the month branch of the period-increment in `get_trend_analysis`. -/
def stepMonth (d : Date) : Option Date :=
  if d.month = 12 then
    if d.day ≤ daysInMonth (d.year + 1) 1 then some ⟨d.year + 1, 1, d.day⟩ else none
  else
    if d.day ≤ daysInMonth d.year (d.month + 1) then some ⟨d.year, d.month + 1, d.day⟩
    else none

/-- `date.replace(year=year+1)` — the year branch of the period-increment. -/
def stepYear (d : Date) : Option Date :=
  if d.day ≤ daysInMonth (d.year + 1) d.month then some ⟨d.year + 1, d.month, d.day⟩
  else none

/-- The calendar successor of a date (used to model `timedelta(days=n)`). -/
def nextDay (d : Date) : Date :=
  if d.day < daysInMonth d.year d.month then ⟨d.year, d.month, d.day + 1⟩
  else if d.month < 12 then ⟨d.year, d.month + 1, 1⟩
  else ⟨d.year + 1, 1, 1⟩

/-- `d + timedelta(days=n)`. -/
def addDays (d : Date) : Nat → Date
  | 0 => d
  | n + 1 => addDays (nextDay d) n

/-- Days in months `1 .. m-1` of year `y`. -/
def daysBeforeMonth (y m : Nat) : Nat :=
  (List.range (m - 1)).foldl (fun a k => a + daysInMonth y (k + 1)) 0

/-- Leap years in `1 .. y`. -/
def leapsBefore (y : Nat) : Nat := y / 4 - y / 100 + y / 400

/-- Proleptic-Gregorian ordinal (`datetime.toordinal`, 0001-01-01 = 1). -/
def toOrdinal (d : Date) : Nat :=
  365 * (d.year - 1) + leapsBefore (d.year - 1) + daysBeforeMonth d.year d.month + d.day

/-- `date.weekday()`: Monday = 0. 0001-01-01 (ordinal 1) was a Monday. -/
def weekday (d : Date) : Nat := (toOrdinal d + 6) % 7

/-- Ordinal of the Monday on/before `d` (the week branch of `get_period_key`). -/
def mondayOnOrBefore (d : Date) : Nat := toOrdinal d - weekday d

/-- `get_period_key` from `get_trend_analysis`, branching on the raw `group_by`
string with a silent month fallback. Each branch encodes its `strftime` key
injectively and order-isomorphically as a `Nat` ("%Y-%m-%d" as the ordinal,
week as the Monday's ordinal, "%Y-%m" as `year*100+month`, "%Y" as the year);
keys from different granularities are never mixed within one call. -/
def getPeriodKey (gb : String) (d : Date) : Nat :=
  if gb = "day" then toOrdinal d
  else if gb = "week" then mondayOnOrBefore d
  else if gb = "month" then d.year * 100 + d.month
  else if gb = "year" then d.year
  else d.year * 100 + d.month

/-- The per-iteration increment of the period-enumeration loop ("Increment
based on group_by"); the month and year branches go through `datetime.replace`
and can raise `ValueError`, surfaced here as `.error`. -/
def periodStep (gb : String) (d : Date) : Except String Date :=
  if gb = "day" then .ok (addDays d 1)
  else if gb = "week" then .ok (addDays d 7)
  else if gb = "month" then
    match stepMonth d with
    | some d2 => .ok d2
    | none => .error "ValueError: day is out of range for month"
  else if gb = "year" then
    match stepYear d with
    | some d2 => .ok d2
    | none => .error "ValueError: day is out of range for month"
  else .ok (addDays d 30)

/-- The `while current <= to_datetime` loop generating `all_periods`: record
the period key of the full current date (with the `not in` dedup check), then
increment. `fuel` is a termination bound only: every step strictly increases
`Date.code current`, so `Date.code t + 2` steps always reach the exit. -/
def genPeriodsLoop : Nat → String → Date → Date → List Nat → Except String (List Nat)
  | 0, _, _, _, acc => .ok acc
  | fuel + 1, gb, t, current, acc =>
    if Date.leB current t then
      let key := getPeriodKey gb current
      let acc2 := if key ∈ acc then acc else acc ++ [key]
      match periodStep gb current with
      | .error e => .error e
      | .ok next => genPeriodsLoop fuel gb t next acc2
    else .ok acc

/-- `all_periods` generation for the range `[f, t]`. -/
def genPeriods (gb : String) (f t : Date) : Except String (List Nat) :=
  genPeriodsLoop (Date.code t + 2) gb t f []

/-- A `purchases_by_period` bucket value (`{"count": 0, "cost": 0.0}`). -/
structure PData where
  count : Nat
  cost : ℚ
deriving DecidableEq, Repr

/-- Record one acquisition event in `purchases_by_period` (insertion-ordered
dict): `count += 1` and `cost += c`. The source guards the cost addition with
`if miniature.cost:`, which skips only `None` and zero — both identical to
adding `0`, so `c` is the item's cost defaulted to `0`. -/
def bumpPurchase (l : List (Nat × PData)) (k : Nat) (c : ℚ) : List (Nat × PData) :=
  match l with
  | [] => [(k, ⟨1, c⟩)]
  | (k1, v) :: rest =>
    if k1 = k then (k1, ⟨v.count + 1, v.cost + c⟩) :: rest
    else (k1, v) :: bumpPurchase rest k c

/-- Bump the per-status counter dict of one bucket. -/
def bumpInner (l : List (PaintingStatus × Nat)) (s : PaintingStatus) :
    List (PaintingStatus × Nat) :=
  match l with
  | [] => [(s, 1)]
  | (s1, v) :: rest =>
    if s1 = s then (s1, v + 1) :: rest else (s1, v) :: bumpInner rest s

/-- Record one state-transition event in `status_changes_by_period`. -/
def bumpStatus (l : List (Nat × List (PaintingStatus × Nat))) (k : Nat)
    (s : PaintingStatus) : List (Nat × List (PaintingStatus × Nat)) :=
  match l with
  | [] => [(k, bumpInner [] s)]
  | (k1, v) :: rest =>
    if k1 = k then (k1, bumpInner v s) :: rest else (k1, v) :: bumpStatus rest k s

/-- The two event dicts accumulated by the extraction pass. -/
structure ExtractState where
  purchases : List (Nat × PData)
  statusChanges : List (Nat × List (PaintingStatus × Nat))
deriving DecidableEq, Repr

/-- `from_date <= log_date.strftime("%Y-%m-%d") <= to_date` (string comparison
of zero-padded ISO dates = `Date.code` comparison). -/
def inRange (f t d : Date) : Bool := Date.leB f d && Date.leB d t

/-- Process one ledger entry of miniature `m` in the extraction pass: skip it
unless its date is in range; otherwise count it as an acquisition when
`to_status == "purchased"` (adding the owning item's cost) and always count it
in the per-status series. -/
def processEntry (gb : String) (f t : Date) (m : Miniature) (acc : ExtractState)
    (e : StatusLogEntry) : ExtractState :=
  if inRange f t e.date then
    let k := getPeriodKey gb e.date
    let acc1 :=
      if e.to_status = .purchased then
        { acc with purchases := bumpPurchase acc.purchases k (m.cost.getD 0) }
      else acc
    { acc1 with statusChanges := bumpStatus acc1.statusChanges k e.to_status }
  else acc

/-- The extraction pass: `for miniature in miniatures: for log_entry in
miniature.status_history: ...`. -/
def extractEvents (gb : String) (minis : List Miniature) (f t : Date) : ExtractState :=
  minis.foldl (fun acc m => m.status_history.foldl (processEntry gb f t m) acc) ⟨[], []⟩

/-- Insertion into a sorted list (ascending). -/
def insertNat (x : Nat) : List Nat → List Nat
  | [] => [x]
  | y :: ys => if x ≤ y then x :: y :: ys else y :: insertNat x ys

/-- `sorted(all_periods)` (the generated keys are duplicate-free, so any
comparison sort produces this list). -/
def sortNat : List Nat → List Nat
  | [] => []
  | x :: xs => insertNat x (sortNat xs)

/-- Lookup in the purchases dict. -/
def findP (l : List (Nat × PData)) (k : Nat) : Option PData :=
  match l with
  | [] => none
  | (k1, v) :: rest => if k1 = k then some v else findP rest k

/-- `purchases_by_period[period]` as read by the series-building loop: the
bucket's data, defaulting to the zero bucket. -/
def valueAt (l : List (Nat × PData)) (k : Nat) : PData := (findP l k).getD ⟨0, 0⟩

/-- The defaultdict `__getitem__` side effect of the series-building loop: each
missing period key is appended with a zero bucket, in the order the loop reads
them. `most_active_month` and the totals are computed over this final dict. -/
def buildFinal (l : List (Nat × PData)) : List Nat → List (Nat × PData)
  | [] => l
  | p :: ps => buildFinal (if (findP l p).isSome then l else l ++ [(p, ⟨0, 0⟩)]) ps

/-- `status_changes_by_period[period].get(status.value, 0)`. -/
def statusCount (l : List (Nat × List (PaintingStatus × Nat))) (k : Nat)
    (s : PaintingStatus) : Nat :=
  ((l.lookup k).getD []).lookup s |>.getD 0

/-- `TrendDataPoint` (`date` is the period key). -/
structure TrendDataPoint where
  date : Nat
  count : Nat
  cost : Option ℚ
deriving DecidableEq, Repr

/-- `StatusTrendData`. -/
structure StatusTrendData where
  status : PaintingStatus
  data_points : List TrendDataPoint
deriving DecidableEq, Repr

/-- `TrendAnalysis` (the `date_range` echo field is omitted). -/
structure TrendAnalysis where
  purchases_over_time : List TrendDataPoint
  spending_over_time : List TrendDataPoint
  status_trends : List StatusTrendData
  total_purchased : Nat
  total_spent : Option ℚ
  most_active_month : Option Nat
  average_monthly_purchases : ℚ
  average_monthly_spending : Option ℚ
deriving DecidableEq, Repr

/-- The "Find most active month" loop: iterate the purchases dict in insertion
order keeping the first bucket whose count strictly exceeds the running max
(initially 0). -/
def mostActiveLoop : List (Nat × PData) → Option Nat → Nat → Option Nat
  | [], best, _ => best
  | (k, v) :: rest, best, mx =>
    if v.count > mx then mostActiveLoop rest (some k) v.count
    else mostActiveLoop rest best mx

/-- `most_active_month` over the final purchases dict. -/
def mostActivePy (l : List (Nat × PData)) : Option Nat := mostActiveLoop l none 0

/-- Assembly of the `TrendAnalysis` result from the generated `all_periods`
(everything in `get_trend_analysis` after the period loop). -/
def mkTrendAnalysis (minis : List Miniature) (f t : Date) (gb : String)
    (allPeriods : List Nat) : TrendAnalysis :=
  let st := extractEvents gb minis f t
  let sp := sortNat allPeriods
  let purchases := sp.map (fun p => TrendDataPoint.mk p (valueAt st.purchases p).count none)
  let spending := sp.map (fun p =>
    let c := (valueAt st.purchases p).cost
    TrendDataPoint.mk p 0 (if c > 0 then some c else none))
  let statusTrends := allStatuses.map (fun s =>
    StatusTrendData.mk s (sp.map (fun p => TrendDataPoint.mk p (statusCount st.statusChanges p s) none)))
  let finalPurchases := buildFinal st.purchases sp
  let totalPurchased := finalPurchases.foldl (fun a kv => a + kv.2.count) 0
  let totalSpent : ℚ := finalPurchases.foldl (fun a kv => a + kv.2.cost) 0
  let numPeriods : Nat := if allPeriods.isEmpty then 1 else allPeriods.length
  { purchases_over_time := purchases
    spending_over_time := spending
    status_trends := statusTrends
    total_purchased := totalPurchased
    total_spent := if totalSpent > 0 then some totalSpent else none
    most_active_month := mostActivePy finalPurchases
    average_monthly_purchases := round1 ((totalPurchased : ℚ) / numPeriods)
    average_monthly_spending :=
      if totalSpent > 0 then some (round2 (totalSpent / numPeriods)) else none }

/-- `get_trend_analysis(user, from_date, to_date, group_by)` (identical bodies
in `PostgreSQLDatabase` and `FileDatabase`), with both dates supplied. There is
no `from <= to` validation anywhere in the function; the only failure is the
`ValueError` escaping from `datetime.replace` in the period loop. -/
def getTrendAnalysis (minis : List Miniature) (f t : Date) (gb : String) :
    Except String TrendAnalysis :=
  match genPeriods gb f t with
  | .error e => .error e
  | .ok allPeriods => .ok (mkTrendAnalysis minis f t gb allPeriods)

/-- Concrete one-entry item already in status `purchased` (for the C3
counterexample). -/
def c3Item : Miniature :=
  { id := 1, name := "m", quantity := 1, cost := none, status := .purchased
    status_history := [⟨0, none, .purchased, ⟨2024, 1, 1⟩, none, false, 0⟩]
    created_at := 0, updated_at := 0 }

/-- Concrete one-entry item in status `want_to_buy` (for the C3 witness). -/
def c3ItemW : Miniature :=
  { id := 2, name := "w", quantity := 1, cost := none, status := .want_to_buy
    status_history := [⟨0, none, .want_to_buy, ⟨2024, 1, 1⟩, none, false, 0⟩]
    created_at := 0, updated_at := 0 }

/-- Concrete item whose ledger holds exactly one entry, with entry id 5 (for
the C4 counterexample). -/
def c4Item : Miniature :=
  { id := 1, name := "m", quantity := 1, cost := none, status := .want_to_buy
    status_history := [⟨5, none, .want_to_buy, ⟨2024, 1, 1⟩, none, false, 0⟩]
    created_at := 0, updated_at := 0 }

/-- Concrete item in `parade_ready` (C5 scenario). -/
def c5ItemA : Miniature :=
  { id := 1, name := "a", quantity := 1, cost := none, status := .parade_ready
    status_history := [⟨1, none, .parade_ready, ⟨2024, 1, 1⟩, none, false, 0⟩]
    created_at := 0, updated_at := 0 }

/-- Concrete item in `primed` (C5 scenario). -/
def c5ItemB : Miniature :=
  { id := 2, name := "b", quantity := 1, cost := none, status := .primed
    status_history := [⟨2, none, .primed, ⟨2024, 1, 1⟩, none, false, 0⟩]
    created_at := 0, updated_at := 0 }

/-- Concrete item whose cost is explicitly `0` (C8 counterexample). -/
def c8Item : Miniature :=
  { id := 1, name := "z", quantity := 1, cost := some 0, status := .purchased
    status_history := [⟨1, none, .purchased, ⟨2024, 1, 1⟩, none, false, 0⟩]
    created_at := 0, updated_at := 0 }

/-- Concrete item with a positive cost (C8 witness). -/
def c8ItemPos : Miniature :=
  { id := 2, name := "p", quantity := 1, cost := some 3, status := .purchased
    status_history := [⟨2, none, .purchased, ⟨2024, 1, 1⟩, none, false, 0⟩]
    created_at := 0, updated_at := 0 }

/-- The zero-filled `TrendAnalysis` produced for a range containing no periods
and no events. -/
def emptyTrendAnalysis : TrendAnalysis :=
  { purchases_over_time := []
    spending_over_time := []
    status_trends := allStatuses.map (fun s => StatusTrendData.mk s [])
    total_purchased := 0
    total_spent := none
    most_active_month := none
    average_monthly_purchases := 0
    average_monthly_spending := none }

/-- Maximum acquisition count over the buckets of a purchases dict. -/
def maxCount (l : List (Nat × PData)) : Nat :=
  l.foldr (fun kv a => max kv.2.count a) 0

instance exceptDecEq {ε α : Type} [DecidableEq ε] [DecidableEq α] :
    DecidableEq (Except ε α) := fun x y =>
  match x, y with
  | .ok a, .ok b =>
    if h : a = b then isTrue (by rw [h]) else
      isFalse (fun hc => h (by injection hc))
  | .error a, .error b =>
    if h : a = b then isTrue (by rw [h]) else
      isFalse (fun hc => h (by injection hc))
  | .ok a, .error b => isFalse (fun hc => Except.noConfusion hc)
  | .error a, .ok b => isFalse (fun hc => Except.noConfusion hc)

/-- The specification's most-active rule, written from the spec's words: the
bucket with the highest acquisition count in the (chronologically ordered)
purchases series, ties broken by the earliest bucket; none when every count
is zero. -/
def specMostActive (series : List TrendDataPoint) : Option Nat :=
  let mx := series.foldr (fun p a => max p.count a) 0
  if mx = 0 then none
  else (series.find? (fun p => p.count = mx)).map (fun p => p.date)

/-- Concrete item purchased in March (listed first, for C9). -/
def c9ItemMar : Miniature :=
  { id := 1, name := "mar", quantity := 1, cost := none, status := .purchased
    status_history := [⟨1, none, .purchased, ⟨2024, 3, 5⟩, none, true, 0⟩]
    created_at := 0, updated_at := 0 }

/-- Concrete item purchased in January (listed second, for C9). -/
def c9ItemJan : Miniature :=
  { id := 2, name := "jan", quantity := 1, cost := none, status := .purchased
    status_history := [⟨2, none, .purchased, ⟨2024, 1, 10⟩, none, true, 0⟩]
    created_at := 0, updated_at := 0 }

/-- Month index on the timeline (`year * 12 + (month - 1)`). -/
def ymIndex (d : Date) : Nat := d.year * 12 + (d.month - 1)

/-- Whole months from `f`'s month to `t`'s month (`months_between`). -/
def monthsBetween (f t : Date) : Nat := ymIndex t - ymIndex f

/-- The "%Y-%m" key of the month with timeline index `n`. -/
def keyOfYm (n : Nat) : Nat := (n / 12) * 100 + n % 12 + 1

/-- The gap-free chronological list of month keys from `f`'s month to `t`'s
month inclusive — what a complete month bucketing must produce. -/
def expectedMonthKeys (f t : Date) : List Nat :=
  (List.range (monthsBetween f t + 1)).map (fun k => keyOfYm (ymIndex f + k))

lemma cacheConsistent_createMiniature (c : MiniatureCreate) (mid eid : Nat) (today : Date)
    (now : Nat) : cacheConsistent (createMiniature c mid eid today now) := by
  simp [cacheConsistent, lastToStatus, createMiniature]

lemma cacheConsistent_updateMiniature (m : Miniature) (u : MiniatureUpdate) (eid : Nat)
    (today : Date) (now : Nat) (h : cacheConsistent m) :
    cacheConsistent (updateMiniature m u eid today now) := by
  unfold cacheConsistent lastToStatus at h ⊢
  by_cases h1 : u.status = none ∧ u.otherFieldsSet = false
  · simpa [updateMiniature, h1] using h
  · by_cases h2 : m.status = u.status.getD m.status
    · simp only [updateMiniature, if_neg h1, ← h2]
      simpa using h
    · simp [updateMiniature, h1, h2]

lemma cacheConsistent_addStatusLogEntry (m : Miniature) (e : StatusLogEntryCreate)
    (eid now : Nat) : cacheConsistent (addStatusLogEntry m e eid now) := by
  simp [cacheConsistent, lastToStatus, addStatusLogEntry]

lemma cacheConsistent_applyCrudOp (m : Miniature) (op : CrudOp) (h : cacheConsistent m) :
    cacheConsistent (applyCrudOp m op) := by
  cases op with
  | update u eid today now => exact cacheConsistent_updateMiniature m u eid today now h
  | addLog e eid now => exact cacheConsistent_addStatusLogEntry m e eid now

lemma cacheConsistent_foldl (ops : List CrudOp) :
    ∀ m : Miniature, cacheConsistent m → cacheConsistent (ops.foldl applyCrudOp m) := by
  induction ops with
  | nil => intro m hm; exact hm
  | cons op rest ih =>
    intro m hm
    exact ih (applyCrudOp m op) (cacheConsistent_applyCrudOp m op hm)

/-- C1: after creating an item and applying any sequence of mutating ledger
operations (`update_miniature`, `add_status_log_entry`), the cached `status`
equals the `to_status` of the most-recently-appended history entry; moreover
`add_status_log_entry` sets `status` to the new entry's `to_status`
unconditionally — the entry's (possibly backdated) `date` is arbitrary. -/
theorem c1_cache_invariant :
    (∀ (c : MiniatureCreate) (mid eid : Nat) (today : Date) (now : Nat)
      (ops : List CrudOp),
      cacheConsistent (ops.foldl applyCrudOp (createMiniature c mid eid today now)))
    ∧ (∀ (m : Miniature) (e : StatusLogEntryCreate) (eid now : Nat),
      (addStatusLogEntry m e eid now).status = e.to_status) := by
  refine ⟨fun c mid eid today now ops => ?_, fun m e eid now => rfl⟩
  exact cacheConsistent_foldl ops _ (cacheConsistent_createMiniature c mid eid today now)

/-- C3 counterexample: updating an item with its current status appends no
ledger entry and leaves the status unchanged, but it DOES bump `updated_at`
(crud.py always sets `updated_at` for a non-empty payload; the PostgreSQL
`UPDATE ... SET updated_at = $n` does the same) — refuting "the item's
`updated_at` timestamp is not bumped". -/
theorem c3_counterexample :
    (updateMiniature c3Item ⟨some .purchased, false⟩ 7 ⟨2024, 2, 2⟩ 5).status_history
      = c3Item.status_history
    ∧ (updateMiniature c3Item ⟨some .purchased, false⟩ 7 ⟨2024, 2, 2⟩ 5).status
      = c3Item.status
    ∧ (updateMiniature c3Item ⟨some .purchased, false⟩ 7 ⟨2024, 2, 2⟩ 5).updated_at
      ≠ c3Item.updated_at := by
  decide

/-- C3 amended: updating with the current status is a no-op on the ledger and
on `status` — but `updated_at` is set to now; updating to a different status
appends exactly one `is_manual = false` entry; and a second update with the
same status never appends a second entry (ledger idempotence). -/
theorem c3_amended :
    ∀ (m : Miniature) (s : PaintingStatus) (e1 e2 n1 n2 : Nat) (d1 d2 : Date),
      (m.status = s →
        (updateMiniature m ⟨some s, false⟩ e1 d1 n1).status_history = m.status_history
        ∧ (updateMiniature m ⟨some s, false⟩ e1 d1 n1).status = m.status
        ∧ (updateMiniature m ⟨some s, false⟩ e1 d1 n1).updated_at = n1)
      ∧ (m.status ≠ s →
        (updateMiniature m ⟨some s, false⟩ e1 d1 n1).status_history
          = m.status_history ++ [⟨e1, some m.status, s, d1, none, false, n1⟩])
      ∧ (updateMiniature (updateMiniature m ⟨some s, false⟩ e1 d1 n1)
          ⟨some s, false⟩ e2 d2 n2).status_history
        = (updateMiniature m ⟨some s, false⟩ e1 d1 n1).status_history := by
  intro m s e1 e2 n1 n2 d1 d2
  refine ⟨fun hs => ?_, fun hs => ?_, ?_⟩
  · simp [updateMiniature, hs]
  · simp [updateMiniature, hs]
  · have hstat : (updateMiniature m ⟨some s, false⟩ e1 d1 n1).status = s := by
      by_cases hs : m.status = s
      · simp [updateMiniature, hs]
      · simp [updateMiniature, hs]
    conv_lhs => rw [updateMiniature]
    simp [hstat]

/-- C3 witness: the amended theorem applied to concrete items — a same-status
update (on `c3Item`) keeps the ledger and status, and a genuine transition
(on `c3ItemW`, `want_to_buy → purchased`) appends the expected entry. -/
theorem c3_amended_witness :
    ((updateMiniature c3Item ⟨some .purchased, false⟩ 1 ⟨2024, 1, 2⟩ 3).status_history
        = c3Item.status_history
      ∧ (updateMiniature c3Item ⟨some .purchased, false⟩ 1 ⟨2024, 1, 2⟩ 3).status
        = c3Item.status
      ∧ (updateMiniature c3Item ⟨some .purchased, false⟩ 1 ⟨2024, 1, 2⟩ 3).updated_at = 3)
    ∧ (updateMiniature c3ItemW ⟨some .purchased, false⟩ 4 ⟨2024, 1, 2⟩ 3).status_history
      = c3ItemW.status_history ++ [⟨4, some c3ItemW.status, .purchased, ⟨2024, 1, 2⟩, none, false, 3⟩] :=
  ⟨(c3_amended c3Item .purchased 1 9 3 9 ⟨2024, 1, 2⟩ ⟨2024, 1, 3⟩).1 (by decide),
   (c3_amended c3ItemW .purchased 4 9 3 9 ⟨2024, 1, 2⟩ ⟨2024, 1, 3⟩).2.1 (by decide)⟩

/-- C4 counterexample: `delete_status_log_entry` does NOT reject deleting the
sole remaining ledger entry — on a one-entry item it succeeds and returns the
item with an empty `status_history`, so an operation can leave the ledger with
zero entries. -/
theorem c4_counterexample :
    (deleteStatusLogEntryCrud c4Item 5 9).map (fun m => m.status_history) = some [] := by
  decide

/-- C4 amended: creation always writes exactly one initial entry with
`from_status = None`, but `delete_status_log_entry` deletes the sole remaining
entry like any other: on a one-entry ledger it succeeds and leaves the ledger
empty (the ledger non-emptiness invariant is not maintained by delete). -/
theorem c4_amended :
    (∀ (c : MiniatureCreate) (mid eid : Nat) (today : Date) (now : Nat),
      (createMiniature c mid eid today now).status_history
        = [⟨eid, none, c.status, today, none, false, now⟩])
    ∧ (∀ (m : Miniature) (e : StatusLogEntry) (now : Nat), m.status_history = [e] →
      deleteStatusLogEntryCrud m e.id now
        = some { m with status_history := [], updated_at := now }) := by
  refine ⟨fun c mid eid today now => rfl, fun m e now h => ?_⟩
  unfold deleteStatusLogEntryCrud
  rw [h]
  simp [List.filter]

/-- C4 witness: the amended theorem at the concrete one-entry item `c4Item`. -/
theorem c4_amended_witness :
    deleteStatusLogEntryCrud c4Item 5 9
      = some { c4Item with status_history := [], updated_at := 9 } :=
  c4_amended.2 c4Item ⟨5, none, .want_to_buy, ⟨2024, 1, 1⟩, none, false, 0⟩ 9 rfl

lemma findAndUpdateEntry_empty_payload (hist : List StatusLogEntry) (logId : Nat) :
    findAndUpdateEntry hist logId ⟨none, none⟩ = none := by
  induction hist with
  | nil => rfl
  | cons e rest ih => simp [findAndUpdateEntry, ih]

/-- C10: `update_status_log_entry` with a payload that sets no fields returns
`None` — surfaced by the route as a 404 — and never saves, leaving the stored
data (every item and its ledger) unmodified, for any stored list of items and
any ids, whether or not they exist. -/
theorem c10_empty_update_returns_none :
    ∀ (data : List Miniature) (minId logId now : Nat),
      updateStatusLogEntryCrud data minId logId ⟨none, none⟩ now = (none, data) := by
  intro data minId logId now
  induction data with
  | nil => rfl
  | cons m rest ih =>
    unfold updateStatusLogEntryCrud
    by_cases h : m.id = minId
    · simp [h, findAndUpdateEntry_empty_payload]
    · simp [h, ih]

lemma roundHalfEven_intCast (n : ℤ) : roundHalfEven (n : ℚ) = n := by
  unfold roundHalfEven
  simp

lemma round1_intCast (n : ℤ) : round1 (n : ℚ) = n := by
  unfold round1
  have h10 : ((n : ℚ) * 10) = (((n * 10 : ℤ)) : ℚ) := by push_cast; ring
  rw [h10, roundHalfEven_intCast]
  push_cast
  ring

lemma round1_zero : round1 (0 : ℚ) = 0 := by
  have h := round1_intCast 0
  norm_num at h
  exact h

/-- C5: on the spec's own scenario (one `parade_ready` item and one `primed`
item), `PostgreSQLDatabase.get_collection_statistics` returns the claimed
`50.0`, but `FileDatabase.get_collection_statistics` returns `0.0` — its
completed-status whitelist `['painted', 'completed', 'finished']` contains no
actual `PaintingStatus` value, contradicting the model's own documentation
("Percentage of units that are game_ready or parade_ready"). -/
theorem c5_divergence :
    (statsPG [c5ItemA, c5ItemB]).completion_percentage = 50
    ∧ (statsFile [c5ItemA, c5ItemB]).completion_percentage = 0 := by
  have h50 : round1 ((1 : ℚ) * 100 / 2) = 50 := by
    have h : ((1 : ℚ) * 100 / 2) = ((50 : ℤ) : ℚ) := by norm_num
    rw [h, round1_intCast]; norm_num
  have h0 : round1 ((0 : ℚ) * 100 / 2) = 0 := by
    have h : ((0 : ℚ) * 100 / 2) = ((0 : ℤ) : ℚ) := by norm_num
    rw [h, round1_intCast]; norm_num
  constructor
  · simp only [statsPG, c5ItemA, c5ItemB]
    norm_num +decide [List.countP_cons, List.countP_nil]
    convert h50 using 2
    norm_num
  · simp only [statsFile, c5ItemA, c5ItemB]
    norm_num +decide [bumpKey, statusStr, fileCompletedStatuses, List.filter_cons,
      List.filter_nil, List.countP_cons, List.countP_nil]
    convert h0 using 2
    norm_num

/-- C6 counterexample: for the empty collection the PostgreSQL implementation
returns `status_breakdown = {}` — no enumeration value is present as a key —
and the FileDatabase implementation keys a non-empty collection's breakdown
only by observed status strings (a single `primed` item yields one key, not
six). -/
theorem c6_counterexample :
    (statsPG []).status_breakdown = []
    ∧ (¬ ∃ n : Nat, (PaintingStatus.want_to_buy, n) ∈ (statsPG []).status_breakdown)
    ∧ (statsFile [c5ItemB]).status_breakdown = [("primed", 1)] := by
  refine ⟨rfl, by simp [statsPG], ?_⟩
  simp [statsFile, bumpKey, statusStr, c5ItemB]

/-- C6 amended: for a NON-empty collection the PostgreSQL implementation's
status breakdown is exactly the zero-filled per-enum table (every enumeration
value is a key, in declaration order, counting the items in that status); the
empty collection instead short-circuits to an empty breakdown. -/
theorem c6_amended :
    (∀ s : PaintingStatus, s ∈ allStatuses)
    ∧ (statsPG []).status_breakdown = []
    ∧ (∀ minis : List Miniature, minis ≠ [] →
        (statsPG minis).status_breakdown
          = allStatuses.map (fun s => (s, countStatus minis s))) := by
  refine ⟨fun s => by cases s <;> simp [allStatuses], rfl, fun minis h => ?_⟩
  unfold statsPG
  rw [if_neg (by simpa using h)]
  rfl

/-- C6 witness: the amended zero-filled table at a concrete one-item
collection. -/
theorem c6_amended_witness :
    (statsPG [c5ItemB]).status_breakdown
      = allStatuses.map (fun s => (s, countStatus [c5ItemB] s)) :=
  c6_amended.2.2 [c5ItemB] (by simp)

/-- C8 counterexample: a collection whose only item has cost explicitly set to
`0` reports `total_cost = None` in both implementations (`total_cost if
total_cost > 0 else None`), not `0` — refuting "null exactly when no item has
a cost set" and "a collection whose items all have cost 0 reports 0". -/
theorem c8_counterexample :
    c8Item.cost = some 0
    ∧ (statsPG [c8Item]).total_cost = none
    ∧ (statsFile [c8Item]).total_cost = none := by
  refine ⟨rfl, ?_, ?_⟩
  · simp only [statsPG, c8Item]
    norm_num [List.filterMap_cons, List.filterMap_nil]
  · simp only [statsFile, c8Item]
    norm_num

lemma foldl_add_nonneg (l : List ℚ) (a : ℚ) (ha : 0 ≤ a) (hl : ∀ c ∈ l, 0 ≤ c) :
    0 ≤ l.foldl (fun x c => x + c) a := by
  induction l generalizing a with
  | nil => exact ha
  | cons c rest ih =>
    exact ih (a + c) (add_nonneg ha (hl c (by simp))) (fun d hd => hl d (by simp [hd]))

lemma sumCosts_nonneg (minis : List Miniature)
    (h : ∀ m ∈ minis, ∀ c : ℚ, m.cost = some c → 0 ≤ c) : 0 ≤ sumCosts minis := by
  refine foldl_add_nonneg _ 0 le_rfl fun c hc => ?_
  obtain ⟨m, hm, hmc⟩ := List.mem_filterMap.mp hc
  exact h m hm c hmc

lemma sumCostsFile_eq_aux (minis : List Miniature) (a : ℚ) :
    minis.foldl (fun x m => x + m.cost.getD 0) a
      = (minis.filterMap (fun m => m.cost)).foldl (fun x c => x + c) a := by
  induction minis generalizing a with
  | nil => rfl
  | cons m rest ih =>
    cases hm : m.cost with
    | none => simp [List.foldl_cons, List.filterMap_cons, hm, ih]
    | some c => simp [List.foldl_cons, List.filterMap_cons, hm, ih]

lemma sumCostsFile_eq (minis : List Miniature) :
    minis.foldl (fun a m => a + m.cost.getD 0) 0 = sumCosts minis :=
  sumCostsFile_eq_aux minis 0

/-- C8 amended: with the model's `cost >= 0` validation, `total_cost` is the
sum of the non-null costs when that sum is strictly positive and `None`
otherwise — so a collection with no costs set AND a collection whose set costs
sum to zero both report `None`; the FileDatabase computes the same value. -/
theorem c8_amended :
    ∀ minis : List Miniature,
      (∀ m ∈ minis, ∀ c : ℚ, m.cost = some c → 0 ≤ c) →
      (((statsPG minis).total_cost = none ↔ sumCosts minis = 0)
        ∧ (∀ tc : ℚ, (statsPG minis).total_cost = some tc → tc = sumCosts minis ∧ 0 < tc)
        ∧ (statsFile minis).total_cost = (statsPG minis).total_cost) := by
  intro minis h
  have hnn := sumCosts_nonneg minis h
  cases minis with
  | nil => exact ⟨by simp [statsPG, sumCosts], by simp [statsPG], by simp [statsFile, statsPG]⟩
  | cons m rest =>
    have hPG : (statsPG (m :: rest)).total_cost
        = if sumCosts (m :: rest) > 0 then some (sumCosts (m :: rest)) else none := rfl
    have hFile : (statsFile (m :: rest)).total_cost
        = if (m :: rest).foldl (fun a x => a + x.cost.getD 0) 0 > 0
          then some ((m :: rest).foldl (fun a x => a + x.cost.getD 0) 0) else none := rfl
    rw [hPG, hFile, sumCostsFile_eq]
    by_cases hpos : sumCosts (m :: rest) > 0
    · rw [if_pos hpos]
      refine ⟨by simp; exact ne_of_gt hpos, fun tc htc => ?_, rfl⟩
      exact ⟨by injection htc with h2; exact h2.symm, by injection htc with h2; exact h2 ▸ hpos⟩
    · rw [if_neg hpos]
      exact ⟨by simp [le_antisymm (not_lt.mp hpos) hnn], by simp, rfl⟩

/-- C8 witness: the amended characterisation at a one-item collection with a
positive cost (total reported) and implicitly the zero branch via `c8Item`. -/
theorem c8_amended_witness :
    ((statsPG [c8ItemPos]).total_cost = none ↔ sumCosts [c8ItemPos] = 0)
    ∧ (∀ tc : ℚ, (statsPG [c8ItemPos]).total_cost = some tc
        → tc = sumCosts [c8ItemPos] ∧ 0 < tc)
    ∧ (statsFile [c8ItemPos]).total_cost = (statsPG [c8ItemPos]).total_cost :=
  c8_amended [c8ItemPos] (by
    intro m hm c hc
    simp only [List.mem_singleton] at hm
    rw [hm] at hc
    simp only [c8ItemPos, Option.some.injEq] at hc
    rw [← hc]
    norm_num)

lemma genPeriodsLoop_exit (fuel : Nat) (gb : String) (t f : Date) (acc : List Nat)
    (h : Date.leB f t = false) : genPeriodsLoop fuel gb t f acc = .ok acc := by
  cases fuel with
  | zero => rfl
  | succ n => simp [genPeriodsLoop, h]

lemma inRange_false_of_lt (f t d : Date) (h : t.code < f.code) :
    inRange f t d = false := by
  unfold inRange Date.leB
  simp only [Bool.and_eq_false_iff, decide_eq_false_iff_not, not_le]
  omega

lemma extractEvents_out_of_range (gb : String) (minis : List Miniature) (f t : Date)
    (h : t.code < f.code) : extractEvents gb minis f t = ⟨[], []⟩ := by
  have hentry : ∀ (m : Miniature) (acc : ExtractState) (e : StatusLogEntry),
      processEntry gb f t m acc e = acc := by
    intro m acc e
    unfold processEntry
    rw [inRange_false_of_lt f t e.date h]
    rfl
  have hhist : ∀ (hist : List StatusLogEntry) (m : Miniature) (acc : ExtractState),
      hist.foldl (processEntry gb f t m) acc = acc := by
    intro hist m
    induction hist with
    | nil => intro acc; rfl
    | cons e rest ih => intro acc; rw [List.foldl_cons, hentry m acc e]; exact ih acc
  unfold extractEvents
  induction minis with
  | nil => rfl
  | cons m rest ih => rw [List.foldl_cons, hhist m.status_history m ⟨[], []⟩]; exact ih

lemma getTrendAnalysis_empty_range (minis : List Miniature) (f t : Date) (gb : String)
    (h : t.code < f.code) : getTrendAnalysis minis f t gb = .ok emptyTrendAnalysis := by
  have hle : Date.leB f t = false := by
    unfold Date.leB
    simp only [decide_eq_false_iff_not, not_le]
    exact h
  unfold getTrendAnalysis genPeriods
  rw [genPeriodsLoop_exit _ _ _ _ _ hle]
  unfold mkTrendAnalysis
  rw [extractEvents_out_of_range gb minis f t h]
  simp only [sortNat, List.map_nil, buildFinal, List.foldl_nil, mostActivePy, mostActiveLoop,
    List.isEmpty_nil, if_pos trivial, emptyTrendAnalysis]
  have h01 : ((0 : Nat) : ℚ) / ((1 : Nat) : ℚ) = ((0 : ℤ) : ℚ) := by norm_num
  norm_num [h01, round1_intCast, round1_zero]

/-- C7 counterexample: `get_trend_analysis` with `from > to` does NOT fail
with a `ValidationError` — it returns a normal zero-filled result with an
empty period list (there is no date-range validation in either
implementation). -/
theorem c7_counterexample :
    getTrendAnalysis [] ⟨2024, 5, 1⟩ ⟨2024, 1, 1⟩ "month" = .ok emptyTrendAnalysis :=
  getTrendAnalysis_empty_range [] ⟨2024, 5, 1⟩ ⟨2024, 1, 1⟩ "month" (by decide)

/-- C7 amended: for every pair of dates with `from > to` (and any items and
granularity string), `get_trend_analysis` returns the ok, zero-filled
`TrendAnalysis` with no period buckets, no events, zero totals and null
summaries — it never raises. -/
theorem c7_amended :
    ∀ (minis : List Miniature) (f t : Date) (gb : String),
      t.code < f.code → getTrendAnalysis minis f t gb = .ok emptyTrendAnalysis :=
  fun minis f t gb h => getTrendAnalysis_empty_range minis f t gb h

/-- C7 witness: the amended theorem at a concrete reversed one-day range with
a non-empty collection and `week` granularity. -/
theorem c7_amended_witness :
    getTrendAnalysis [c8ItemPos] ⟨2025, 3, 10⟩ ⟨2025, 3, 9⟩ "week" = .ok emptyTrendAnalysis :=
  c7_amended [c8ItemPos] ⟨2025, 3, 10⟩ ⟨2025, 3, 9⟩ "week" (by decide)

lemma mostActiveLoop_spec (l : List (Nat × PData)) :
    ∀ (best : Option Nat) (mx : Nat),
      (mostActiveLoop l best mx = best ∧ maxCount l ≤ mx)
      ∨ (∃ k v, mostActiveLoop l best mx = some k ∧ (k, v) ∈ l
          ∧ v.count = max mx (maxCount l) ∧ mx < v.count) := by
  induction l with
  | nil => exact fun best mx => Or.inl ⟨rfl, Nat.zero_le mx⟩
  | cons kv rest ih =>
    intro best mx
    obtain ⟨k1, v1⟩ := kv
    have hmaxc : maxCount ((k1, v1) :: rest) = max v1.count (maxCount rest) := rfl
    by_cases h : v1.count > mx
    · have hstep : mostActiveLoop ((k1, v1) :: rest) best mx
          = mostActiveLoop rest (some k1) v1.count := by
        simp [mostActiveLoop, h]
      rcases ih (some k1) v1.count with ⟨heq, hle⟩ | ⟨k, v, heq, hmem, hcnt, hlt⟩
      · refine Or.inr ⟨k1, v1, by rw [hstep, heq], by simp, ?_, h⟩
        rw [hmaxc, Nat.max_eq_left hle, Nat.max_eq_right (Nat.le_of_lt h)]
      · refine Or.inr ⟨k, v, by rw [hstep, heq], by simp [hmem], ?_, Nat.lt_trans h hlt⟩
        rw [hmaxc, hcnt]
        have h1 : mx ≤ max v1.count (maxCount rest) :=
          Nat.le_trans (Nat.le_of_lt h) (Nat.le_max_left _ _)
        rw [Nat.max_eq_right h1]
    · have hstep : mostActiveLoop ((k1, v1) :: rest) best mx
          = mostActiveLoop rest best mx := by
        simp [mostActiveLoop, h]
      push_neg at h
      rcases ih best mx with ⟨heq, hle⟩ | ⟨k, v, heq, hmem, hcnt, hlt⟩
      · exact Or.inl ⟨by rw [hstep, heq], by rw [hmaxc]; exact Nat.max_le.mpr ⟨h, hle⟩⟩
      · refine Or.inr ⟨k, v, by rw [hstep, heq], by simp [hmem], ?_, hlt⟩
        rw [hmaxc, hcnt, ← Nat.max_assoc, Nat.max_eq_left h]

lemma count_le_maxCount (l : List (Nat × PData)) :
    ∀ kv ∈ l, kv.2.count ≤ maxCount l := by
  induction l with
  | nil => simp
  | cons kv0 rest ih =>
    intro kv hkv
    rcases List.mem_cons.mp hkv with h | h
    · rw [h]
      exact Nat.le_max_left _ _
    · exact Nat.le_trans (ih kv h) (Nat.le_max_right _ _)

lemma mostActivePy_none_iff (l : List (Nat × PData)) :
    mostActivePy l = none ↔ ∀ kv ∈ l, kv.2.count = 0 := by
  unfold mostActivePy
  rcases mostActiveLoop_spec l none 0 with ⟨heq, hle⟩ | ⟨k, v, heq, hmem, hcnt, hlt⟩
  · rw [heq]
    exact iff_of_true rfl (fun kv hkv =>
      Nat.le_antisymm (Nat.le_trans (count_le_maxCount l kv hkv) hle) (Nat.zero_le _))
  · rw [heq]
    exact iff_of_false (by simp)
      (fun hall => absurd (hall (k, v) hmem) (Nat.pos_iff_ne_zero.mp hlt))

lemma mostActivePy_max (l : List (Nat × PData)) (k : Nat)
    (h : mostActivePy l = some k) :
    ∃ v, (k, v) ∈ l ∧ v.count = maxCount l ∧ 0 < v.count := by
  unfold mostActivePy at h
  rcases mostActiveLoop_spec l none 0 with ⟨heq, _⟩ | ⟨k', v, heq, hmem, hcnt, hlt⟩
  · rw [heq] at h
    exact absurd h (by simp)
  · rw [heq] at h
    obtain rfl : k' = k := by injection h
    exact ⟨v, hmem, by rw [hcnt]; exact Nat.max_eq_right (Nat.zero_le _), hlt⟩

lemma processEntry_purchases (gb : String) (f t : Date) (m : Miniature)
    (acc : ExtractState) (e : StatusLogEntry)
    (h : ¬(inRange f t e.date = true ∧ e.to_status = PaintingStatus.purchased)) :
    (processEntry gb f t m acc e).purchases = acc.purchases := by
  unfold processEntry
  by_cases hin : inRange f t e.date
  · have hps : ¬ e.to_status = PaintingStatus.purchased := fun hp => h ⟨hin, hp⟩
    simp [hin, hps]
  · simp [hin]

lemma extractEvents_purchases_nil (gb : String) (minis : List Miniature) (f t : Date)
    (h : ∀ m ∈ minis, ∀ e ∈ m.status_history,
      ¬(inRange f t e.date = true ∧ e.to_status = PaintingStatus.purchased)) :
    (extractEvents gb minis f t).purchases = [] := by
  unfold extractEvents
  suffices hgen : ∀ (l : List Miniature) (acc : ExtractState),
      (∀ m ∈ l, ∀ e ∈ m.status_history,
        ¬(inRange f t e.date = true ∧ e.to_status = PaintingStatus.purchased)) →
      (l.foldl (fun acc m => m.status_history.foldl (processEntry gb f t m) acc) acc).purchases
        = acc.purchases by
    exact hgen minis ⟨[], []⟩ h
  intro l
  induction l with
  | nil => intro acc _; rfl
  | cons m rest ih =>
    intro acc hl
    rw [List.foldl_cons]
    have hhist : ∀ (hist : List StatusLogEntry) (acc2 : ExtractState),
        (∀ e ∈ hist, ¬(inRange f t e.date = true ∧ e.to_status = PaintingStatus.purchased)) →
        (hist.foldl (processEntry gb f t m) acc2).purchases = acc2.purchases := by
      intro hist
      induction hist with
      | nil => intro acc2 _; rfl
      | cons e hrest hih =>
        intro acc2 hh
        rw [List.foldl_cons]
        rw [hih _ (fun e2 he2 => hh e2 (List.mem_cons_of_mem e he2))]
        exact processEntry_purchases gb f t m acc2 e (hh e (List.mem_cons_self e hrest))
    rw [ih _ (fun m2 hm2 => hl m2 (List.mem_cons_of_mem m hm2))]
    exact hhist m.status_history acc (hl m (List.mem_cons_self m rest))

lemma buildFinal_all_zero (ps : List Nat) :
    ∀ l : List (Nat × PData), (∀ kv ∈ l, kv.2.count = 0) →
      ∀ kv ∈ buildFinal l ps, kv.2.count = 0 := by
  induction ps with
  | nil => intro l hl kv hkv; exact hl kv hkv
  | cons p rest ih =>
    intro l hl kv hkv
    refine ih _ ?_ kv hkv
    intro kv2 hkv2
    by_cases hfound : (findP l p).isSome
    · rw [if_pos hfound] at hkv2
      exact hl kv2 hkv2
    · rw [if_neg hfound] at hkv2
      rcases List.mem_append.mp hkv2 with hmem | hmem
      · exact hl kv2 hmem
      · rw [List.mem_singleton.mp hmem]

/-- C9 counterexample: with one purchase in 2024-03 (its item iterated first)
and one in 2024-01, both buckets tie at count 1 but `most_active_month` is
`2024-03` — the bucket first touched during extraction — not the
chronologically earliest `2024-01` required by the claim (which
`specMostActive` computes from the same series). -/
theorem c9_counterexample :
    (getTrendAnalysis [c9ItemMar, c9ItemJan] ⟨2024, 1, 1⟩ ⟨2024, 3, 28⟩ "month").map
        (fun ta => (ta.most_active_month, specMostActive ta.purchases_over_time,
          ta.purchases_over_time.map (fun p => (p.date, p.count))))
      = .ok (some 202403, some 202401, [(202401, 1), (202402, 0), (202403, 1)]) := by
  decide

/-- C9 amended: `most_active_month` is computed by a strict-max scan over the
purchases dict in insertion order (buckets in the order they first received a
purchase during extraction, then the zero-filled buckets), so it is null iff
every bucket count is zero (in particular when no acquisition falls in range),
and when non-null it names a bucket attaining the maximum acquisition count —
but ties go to the first-touched bucket, not the chronologically earliest. -/
theorem c9_amended :
    ∀ (minis : List Miniature) (f t : Date) (gb : String) (ap : List Nat),
      genPeriods gb f t = .ok ap →
      ∃ ta, getTrendAnalysis minis f t gb = .ok ta
        ∧ ta.most_active_month
            = mostActivePy (buildFinal (extractEvents gb minis f t).purchases (sortNat ap))
        ∧ (ta.most_active_month = none ↔
            ∀ kv ∈ buildFinal (extractEvents gb minis f t).purchases (sortNat ap),
              kv.2.count = 0)
        ∧ (∀ k, ta.most_active_month = some k →
            ∃ v, (k, v) ∈ buildFinal (extractEvents gb minis f t).purchases (sortNat ap)
              ∧ v.count
                  = maxCount (buildFinal (extractEvents gb minis f t).purchases (sortNat ap))
              ∧ 0 < v.count)
        ∧ ((∀ m ∈ minis, ∀ e ∈ m.status_history,
              ¬(inRange f t e.date = true ∧ e.to_status = PaintingStatus.purchased)) →
            ta.most_active_month = none) := by
  intro minis f t gb ap hap
  have hma : (mkTrendAnalysis minis f t gb ap).most_active_month
      = mostActivePy (buildFinal (extractEvents gb minis f t).purchases (sortNat ap)) := rfl
  refine ⟨mkTrendAnalysis minis f t gb ap, ?_, hma, ?_, ?_, ?_⟩
  · unfold getTrendAnalysis
    rw [hap]
  · rw [hma]
    exact mostActivePy_none_iff _
  · intro k hk
    rw [hma] at hk
    exact mostActivePy_max _ k hk
  · intro hnp
    have hpn := extractEvents_purchases_nil gb minis f t hnp
    rw [hma, hpn, mostActivePy_none_iff]
    exact buildFinal_all_zero (sortNat ap) [] (by simp)

/-- C9 witness: the amended theorem at a concrete single-item January range
(it also certifies `genPeriods` at that range by evaluation). -/
theorem c9_amended_witness :
    ∃ ta, getTrendAnalysis [c9ItemJan] ⟨2024, 1, 1⟩ ⟨2024, 1, 31⟩ "month" = .ok ta
      ∧ (∀ k, ta.most_active_month = some k →
          ∃ v, (k, v) ∈ buildFinal
              (extractEvents "month" [c9ItemJan] ⟨2024, 1, 1⟩ ⟨2024, 1, 31⟩).purchases
              (sortNat [202401])
            ∧ v.count = maxCount (buildFinal
                (extractEvents "month" [c9ItemJan] ⟨2024, 1, 1⟩ ⟨2024, 1, 31⟩).purchases
                (sortNat [202401]))
            ∧ 0 < v.count) := by
  obtain ⟨ta, h1, h2, h3, h4, h5⟩ :=
    c9_amended [c9ItemJan] ⟨2024, 1, 1⟩ ⟨2024, 1, 31⟩ "month" [202401] (by decide)
  exact ⟨ta, h1, h4⟩

/-- C2 counterexample: over `[2024-01-15, 2024-03-10]` with month granularity
the trend buckets are `[2024-01, 2024-02]` — the final month 2024-03 is
missing because the loop steps the FULL start date (`2024-03-15 > 2024-03-10`
ends the loop early whenever `from.day > to.day`), so the bucket count is 2,
not `months_between + 1 = 3`; and a day-31 start date does not roll over at
all — `replace(month=2)` raises `ValueError` and the call fails. -/
theorem c2_counterexample :
    (getTrendAnalysis [] ⟨2024, 1, 15⟩ ⟨2024, 3, 10⟩ "month").map
        (fun ta => ta.purchases_over_time.map (fun p => p.date))
      = .ok [202401, 202402]
    ∧ monthsBetween ⟨2024, 1, 15⟩ ⟨2024, 3, 10⟩ + 1 = 3
    ∧ getTrendAnalysis [] ⟨2024, 1, 31⟩ ⟨2024, 3, 10⟩ "month"
        = .error "ValueError: day is out of range for month" := by
  decide

lemma daysInMonth_le_31 (y m : Nat) : daysInMonth y m ≤ 31 := by
  unfold daysInMonth
  split_ifs <;> omega

lemma daysInMonth_ge_28 (y m : Nat) : 28 ≤ daysInMonth y m := by
  unfold daysInMonth
  split_ifs <;> omega

lemma keyOfYm_eq (cy cm : Nat) (h1 : 1 ≤ cm) (h2 : cm ≤ 12) :
    keyOfYm (cy * 12 + (cm - 1)) = cy * 100 + cm := by
  unfold keyOfYm
  omega

lemma getPeriodKey_month (d : Date) : getPeriodKey "month" d = d.year * 100 + d.month := by
  simp [getPeriodKey]

lemma genMonthsLoop_spec (t : Date) (dday : Nat) (ht : t.valid) (h28 : dday ≤ 28)
    (hday : dday ≤ t.day) :
    ∀ (n fuel cy cm : Nat) (acc : List Nat),
      1 ≤ cm → cm ≤ 12 →
      n = ymIndex t + 1 - (cy * 12 + (cm - 1)) →
      n + 1 ≤ fuel →
      (∀ a ∈ acc, a < cy * 100 + cm) →
      genPeriodsLoop fuel "month" t ⟨cy, cm, dday⟩ acc
        = .ok (acc ++ (List.range n).map (fun k => keyOfYm (cy * 12 + (cm - 1) + k))) := by
  have htm1 : 1 ≤ t.month := ht.1
  have htm2 : t.month ≤ 12 := ht.2.1
  have htd : t.day ≤ 31 := le_trans ht.2.2.2 (daysInMonth_le_31 t.year t.month)
  intro n
  induction n with
  | zero =>
    intro fuel cy cm acc hcm1 hcm2 hn hfuel hacc
    obtain ⟨fuel2, rfl⟩ : ∃ f2, fuel = f2 + 1 := ⟨fuel - 1, by omega⟩
    have hgt : Date.leB ⟨cy, cm, dday⟩ t = false := by
      unfold Date.leB Date.code
      unfold ymIndex at hn
      simp only [decide_eq_false_iff_not, not_le]
      omega
    simp [genPeriodsLoop, hgt]
  | succ n ih =>
    intro fuel cy cm acc hcm1 hcm2 hn hfuel hacc
    obtain ⟨fuel2, rfl⟩ : ∃ f2, fuel = f2 + 1 := ⟨fuel - 1, by omega⟩
    have hle : Date.leB ⟨cy, cm, dday⟩ t = true := by
      unfold Date.leB Date.code
      unfold ymIndex at hn
      simp only [decide_eq_true_eq]
      omega
    have hkey : getPeriodKey "month" ⟨cy, cm, dday⟩ = cy * 100 + cm := getPeriodKey_month _
    have hnotmem : (cy * 100 + cm) ∉ acc := fun hmem => absurd (hacc _ hmem) (by omega)
    have hkeyOf : keyOfYm (cy * 12 + (cm - 1)) = cy * 100 + cm := keyOfYm_eq cy cm hcm1 hcm2
    by_cases hcm12 : cm = 12
    · subst hcm12
      have hstep : periodStep "month" ⟨cy, 12, dday⟩ = .ok ⟨cy + 1, 1, dday⟩ := by
        have hd : dday ≤ daysInMonth (cy + 1) 1 :=
          le_trans h28 (daysInMonth_ge_28 (cy + 1) 1)
        simp [periodStep, stepMonth, hd]
      have hrec := ih fuel2 (cy + 1) 1 (acc ++ [cy * 100 + 12]) (by omega) (by omega)
        (by unfold ymIndex at hn ⊢; omega) (by omega)
        (by
          intro a ha
          rcases List.mem_append.mp ha with h1 | h1
          · have := hacc a h1
            omega
          · rw [List.mem_singleton.mp h1]
            omega)
      rw [genPeriodsLoop, if_pos hle]
      simp only [hkey, hstep]
      rw [if_neg hnotmem]
      rw [hrec]
      congr 1
      rw [List.range_succ_eq_map, List.map_cons, List.map_map]
      have hhead : keyOfYm (cy * 12 + (12 - 1) + 0) = cy * 100 + 12 := by
        simpa using hkeyOf
      rw [hhead]
      have htail : (List.range n).map ((fun k => keyOfYm (cy * 12 + (12 - 1) + k)) ∘ Nat.succ)
          = (List.range n).map (fun k => keyOfYm ((cy + 1) * 12 + (1 - 1) + k)) := by
        refine List.map_congr_left fun a _ => ?_
        simp only [Function.comp]
        congr 1
        omega
      rw [htail, List.append_assoc]
      rfl
    · have hcmlt : cm < 12 := lt_of_le_of_ne hcm2 hcm12
      have hstep : periodStep "month" ⟨cy, cm, dday⟩ = .ok ⟨cy, cm + 1, dday⟩ := by
        have hd : dday ≤ daysInMonth cy (cm + 1) :=
          le_trans h28 (daysInMonth_ge_28 cy (cm + 1))
        simp [periodStep, stepMonth, hcm12, hd]
      have hrec := ih fuel2 cy (cm + 1) (acc ++ [cy * 100 + cm]) (by omega) (by omega)
        (by unfold ymIndex at hn ⊢; omega) (by omega)
        (by
          intro a ha
          rcases List.mem_append.mp ha with h1 | h1
          · have := hacc a h1
            omega
          · rw [List.mem_singleton.mp h1]
            omega)
      rw [genPeriodsLoop, if_pos hle]
      simp only [hkey, hstep]
      rw [if_neg hnotmem]
      rw [hrec]
      congr 1
      rw [List.range_succ_eq_map, List.map_cons, List.map_map]
      rw [show cy * 12 + (cm - 1) + 0 = cy * 12 + (cm - 1) by omega, hkeyOf]
      have htail : (List.range n).map ((fun k => keyOfYm (cy * 12 + (cm - 1) + k)) ∘ Nat.succ)
          = (List.range n).map (fun k => keyOfYm (cy * 12 + (cm + 1 - 1) + k)) := by
        refine List.map_congr_left fun a _ => ?_
        simp only [Function.comp]
        congr 1
        omega
      rw [htail, List.append_assoc]
      rfl

lemma genPeriods_month (f t : Date) (hf : f.valid) (ht : t.valid) (h28 : f.day ≤ 28)
    (hday : f.day ≤ t.day) (hym : ymIndex f ≤ ymIndex t) :
    genPeriods "month" f t = .ok (expectedMonthKeys f t) := by
  have hf1 : 1 ≤ f.month := hf.1
  have hf2 : f.month ≤ 12 := hf.2.1
  have heq := genMonthsLoop_spec t f.day ht h28 hday (ymIndex t + 1 - ymIndex f)
    (Date.code t + 2) f.year f.month [] hf1 hf2 (by unfold ymIndex; omega)
    (by unfold ymIndex Date.code; omega)
    (by intro a ha; cases ha)
  have hcount : ymIndex t + 1 - ymIndex f = (ymIndex t - ymIndex f) + 1 := by omega
  rw [hcount] at heq
  unfold genPeriods
  rw [show (⟨f.year, f.month, f.day⟩ : Date) = f from rfl] at heq
  rw [heq]
  rfl

lemma insertNat_of_le (x : Nat) (l : List Nat) (h : ∀ y ∈ l, x ≤ y) :
    insertNat x l = x :: l := by
  cases l with
  | nil => rfl
  | cons y ys => simp [insertNat, h y (by simp)]

lemma sortNat_eq_self (l : List Nat) (h : l.Pairwise (· ≤ ·)) : sortNat l = l := by
  induction l with
  | nil => rfl
  | cons x xs ih =>
    rw [sortNat, ih (List.pairwise_cons.mp h).2]
    exact insertNat_of_le x xs (List.pairwise_cons.mp h).1

lemma keyOfYm_lt (a b : Nat) (h : a < b) : keyOfYm a < keyOfYm b := by
  unfold keyOfYm
  omega

lemma expectedMonthKeys_pairwise_lt (f t : Date) :
    (expectedMonthKeys f t).Pairwise (· < ·) := by
  unfold expectedMonthKeys
  rw [List.pairwise_map]
  exact (List.pairwise_lt_range _).imp (fun hab => keyOfYm_lt _ _ (by omega))

lemma findP_bumpPurchase (l : List (Nat × PData)) (k k' : Nat) (c : ℚ) (h : k' ≠ k) :
    findP (bumpPurchase l k c) k' = findP l k' := by
  induction l with
  | nil =>
    simp only [bumpPurchase, findP]
    rw [if_neg (fun hc => h hc.symm)]
  | cons kv rest ih =>
    obtain ⟨k1, v⟩ := kv
    by_cases h1 : k1 = k
    · subst h1
      have h2 : ¬ k1 = k' := fun hc => h (hc ▸ rfl)
      simp [bumpPurchase, findP, h2]
    · by_cases h2 : k1 = k'
      · simp [bumpPurchase, h1, findP, h2, h]
      · simp [bumpPurchase, h1, findP, h2, ih]

lemma processEntry_findP (gb : String) (f t : Date) (m : Miniature) (acc : ExtractState)
    (e : StatusLogEntry) (k : Nat)
    (h : ¬(inRange f t e.date = true ∧ e.to_status = PaintingStatus.purchased
        ∧ getPeriodKey gb e.date = k))
    (hacc : findP acc.purchases k = none) :
    findP (processEntry gb f t m acc e).purchases k = none := by
  unfold processEntry
  by_cases hin : inRange f t e.date
  · rw [if_pos hin]
    dsimp only
    by_cases hps : e.to_status = PaintingStatus.purchased
    · rw [if_pos hps]
      dsimp only
      have hk : ¬ getPeriodKey gb e.date = k := fun hk => h ⟨hin, hps, hk⟩
      rw [findP_bumpPurchase _ _ _ _ (fun hc => hk hc.symm)]
      exact hacc
    · rw [if_neg hps]
      exact hacc
  · rw [if_neg hin]
    exact hacc

lemma extractEvents_findP_none (gb : String) (minis : List Miniature) (f t : Date) (k : Nat)
    (h : ∀ m ∈ minis, ∀ e ∈ m.status_history,
      ¬(inRange f t e.date = true ∧ e.to_status = PaintingStatus.purchased
        ∧ getPeriodKey gb e.date = k)) :
    findP (extractEvents gb minis f t).purchases k = none := by
  unfold extractEvents
  suffices hgen : ∀ (l : List Miniature) (acc : ExtractState),
      (∀ m ∈ l, ∀ e ∈ m.status_history,
        ¬(inRange f t e.date = true ∧ e.to_status = PaintingStatus.purchased
          ∧ getPeriodKey gb e.date = k)) →
      findP acc.purchases k = none →
      findP ((l.foldl (fun acc m => m.status_history.foldl (processEntry gb f t m) acc)
        acc)).purchases k = none by
    exact hgen minis ⟨[], []⟩ h rfl
  intro l
  induction l with
  | nil => intro acc _ hacc; exact hacc
  | cons m rest ih =>
    intro acc hl hacc
    rw [List.foldl_cons]
    have hhist : ∀ (hist : List StatusLogEntry) (acc2 : ExtractState),
        (∀ e ∈ hist, ¬(inRange f t e.date = true ∧ e.to_status = PaintingStatus.purchased
          ∧ getPeriodKey gb e.date = k)) →
        findP acc2.purchases k = none →
        findP (hist.foldl (processEntry gb f t m) acc2).purchases k = none := by
      intro hist
      induction hist with
      | nil => intro acc2 _ hacc2; exact hacc2
      | cons e hrest hih =>
        intro acc2 hh hacc2
        rw [List.foldl_cons]
        exact hih _ (fun e2 he2 => hh e2 (List.mem_cons_of_mem e he2))
          (processEntry_findP gb f t m acc2 e k (hh e (List.mem_cons_self e hrest)) hacc2)
    exact ih _ (fun m2 hm2 => hl m2 (List.mem_cons_of_mem m hm2))
      (hhist m.status_history acc (hl m (List.mem_cons_self m rest)) hacc)

/-- C2 amended: the month-granularity buckets are complete — exactly
`months_between + 1` buckets, chronological, gap-free, zero-filled — ONLY
under the extra precondition that the start date's day-of-month is at most 28
(so `replace` never raises) and at most the end date's day-of-month (so the
stepped full date does not overshoot the final month). The counterexample
shows both restrictions are necessary: `from.day > to.day` silently drops the
final bucket, and `from.day ≥ 29` can raise `ValueError`. -/
theorem c2_amended :
    ∀ (minis : List Miniature) (f t : Date),
      f.valid → t.valid → f.day ≤ 28 → f.day ≤ t.day → ymIndex f ≤ ymIndex t →
      ∃ ta, getTrendAnalysis minis f t "month" = .ok ta
        ∧ ta.purchases_over_time.map (fun p => p.date) = expectedMonthKeys f t
        ∧ ta.spending_over_time.map (fun p => p.date) = expectedMonthKeys f t
        ∧ (∀ st ∈ ta.status_trends,
            st.data_points.map (fun p => p.date) = expectedMonthKeys f t)
        ∧ (expectedMonthKeys f t).length = monthsBetween f t + 1
        ∧ (expectedMonthKeys f t).Pairwise (· < ·)
        ∧ (∀ p ∈ ta.purchases_over_time,
            (∀ m ∈ minis, ∀ e ∈ m.status_history,
              ¬(inRange f t e.date = true ∧ e.to_status = PaintingStatus.purchased
                ∧ getPeriodKey "month" e.date = p.date)) →
            p.count = 0) := by
  intro minis f t hf ht h28 hday hym
  have hgen := genPeriods_month f t hf ht h28 hday hym
  have hsorted : sortNat (expectedMonthKeys f t) = expectedMonthKeys f t :=
    sortNat_eq_self _ ((expectedMonthKeys_pairwise_lt f t).imp le_of_lt)
  refine ⟨mkTrendAnalysis minis f t "month" (expectedMonthKeys f t),
    ?_, ?_, ?_, ?_, ?_, expectedMonthKeys_pairwise_lt f t, ?_⟩
  · unfold getTrendAnalysis
    rw [hgen]
  · show ((sortNat (expectedMonthKeys f t)).map _).map _ = _
    rw [hsorted, List.map_map]
    exact List.map_id' _
  · show ((sortNat (expectedMonthKeys f t)).map _).map _ = _
    rw [hsorted, List.map_map]
    exact List.map_id' _
  · intro st hst
    obtain ⟨s, _, rfl⟩ := List.mem_map.mp hst
    show ((sortNat (expectedMonthKeys f t)).map _).map _ = _
    rw [hsorted, List.map_map]
    exact List.map_id' _
  · simp [expectedMonthKeys]
  · intro p hp hnone
    replace hp : p ∈ (sortNat (expectedMonthKeys f t)).map
        (fun q => TrendDataPoint.mk q
          (valueAt (extractEvents "month" minis f t).purchases q).count none) := hp
    rw [hsorted] at hp
    obtain ⟨key, _, rfl⟩ := List.mem_map.mp hp
    show (valueAt (extractEvents "month" minis f t).purchases key).count = 0
    unfold valueAt
    rw [extractEvents_findP_none "month" minis f t key hnone]
    rfl

/-- C2 witness: the amended theorem at the spec's own scenario range
`[2024-01-01, 2024-04-30]`, whose four buckets are 2024-01 .. 2024-04. -/
theorem c2_amended_witness :
    ∃ ta, getTrendAnalysis [] ⟨2024, 1, 1⟩ ⟨2024, 4, 30⟩ "month" = .ok ta
      ∧ ta.purchases_over_time.map (fun p => p.date)
          = expectedMonthKeys ⟨2024, 1, 1⟩ ⟨2024, 4, 30⟩
      ∧ (expectedMonthKeys ⟨2024, 1, 1⟩ ⟨2024, 4, 30⟩).length
          = monthsBetween ⟨2024, 1, 1⟩ ⟨2024, 4, 30⟩ + 1 := by
  obtain ⟨ta, h1, h2, h3, h4, h5, h6, h7⟩ :=
    c2_amended [] ⟨2024, 1, 1⟩ ⟨2024, 4, 30⟩ (by decide) (by decide) (by decide)
      (by decide) (by decide)
  exact ⟨ta, h1, h2, h5⟩
